import Mathlib

/-!
Shallow embedding of the mini-lsm starter sources: the block codec
(`src/block.rs`), the SSTable builder (`src/table/builder.rs`) and the
k-way merge iterator (`src/iterators/merge_iterator.rs`).  Bytes are
modelled as natural numbers below 256 and byte buffers as `List Nat`;
machine-integer casts are made explicit with `% 2 ^ w`.  Operations that
can panic or fail in the source return `Option`.
-/

namespace MiniLsm

/-- Big-endian byte pair of a 16-bit value (Rust `put_u16`). -/
def u16BE (x : Nat) : List Nat := [x / 256 % 256, x % 256]

/-- Big-endian bytes of a 32-bit value (Rust `put_u32`). -/
def u32BE (x : Nat) : List Nat :=
  [x / 16777216 % 256, x / 65536 % 256, x / 256 % 256, x % 256]

/-- Rust `u16::from_be_bytes([l[i], l[i+1]])`; out-of-range reads default to 0. -/
def readU16 (l : List Nat) (i : Nat) : Nat := l.getD i 0 * 256 + l.getD (i + 1) 0

/-- Big-endian 32-bit read at index `i`. -/
def readU32 (l : List Nat) (i : Nat) : Nat :=
  ((l.getD i 0 * 256 + l.getD (i + 1) 0) * 256 + l.getD (i + 2) 0) * 256 + l.getD (i + 3) 0

/-- `Block` from `src/block.rs`: concatenated entry bytes plus per-entry start
offsets (`u16` values in the source, carried here as `Nat` with the bound
`< 65536` stated where it matters). -/
structure Block where
  data : List Nat
  offsets : List Nat
deriving DecidableEq

/-- `Block::encode`: data bytes, then each offset as a big-endian u16, then the
entry count truncated to u16 (`offsets.len() as u16`). -/
def Block.encode (b : Block) : List Nat :=
  b.data ++ (b.offsets.map u16BE).flatten ++ u16BE (b.offsets.length % 65536)

/-- The decode loop of `Block::decode`: read big-endian u16 values while at
least two bytes remain. -/
def parseU16s : List Nat → List Nat
  | a :: b :: rest => (a * 256 + b) :: parseU16s rest
  | _ => []

/-- `Block::decode`.  `none` models the panics of the source: indexing
`data[total_len - 2]` on inputs shorter than two bytes and the length
underflow of `total_len - 2 - offsets_len` on inputs shorter than
`2 * n + 2` bytes. -/
def Block.decode (input : List Nat) : Option Block :=
  if input.length < 2 then none
  else if input.length < 2 * readU16 input (input.length - 2) + 2 then none
  else some
    { data := input.take (input.length - 2 - 2 * readU16 input (input.length - 2)),
      offsets := parseU16s ((input.take (input.length - 2)).drop
        (input.length - 2 - 2 * readU16 input (input.length - 2))) }

lemma length_flatten_map_u16BE (l : List Nat) :
    ((l.map u16BE).flatten).length = 2 * l.length := by
  induction l with
  | nil => rfl
  | cons a t ih =>
    simp only [List.map_cons, List.flatten_cons, List.length_append, List.length_cons, ih, u16BE,
      List.length_nil]
    omega

lemma parseU16s_u16BE_cons (o : Nat) (ho : o < 65536) (rest : List Nat) :
    parseU16s (u16BE o ++ rest) = o :: parseU16s rest := by
  have h1 : o / 256 < 256 := by omega
  simp only [u16BE, List.cons_append, List.nil_append, parseU16s]
  congr 1
  omega

lemma parseU16s_flatten_map (l : List Nat) (h : ∀ o ∈ l, o < 65536) :
    parseU16s ((l.map u16BE).flatten) = l := by
  induction l with
  | nil => rfl
  | cons a t ih =>
    rw [List.map_cons, List.flatten_cons, parseU16s_u16BE_cons a (h a (by simp)),
      ih (fun o ho => h o (by simp [ho]))]

lemma parseU16s_length : ∀ l : List Nat, (parseU16s l).length = l.length / 2
  | [] => rfl
  | [_] => by simp [parseU16s]
  | _ :: _ :: rest => by
    simp only [parseU16s, List.length_cons, parseU16s_length rest]
    omega

lemma readU16_append (pre : List Nat) (a b : Nat) :
    readU16 (pre ++ [a, b]) pre.length = a * 256 + b := by
  induction pre with
  | nil => rfl
  | cons x t ih =>
    simpa only [readU16, List.cons_append, List.length_cons, List.getD_cons_succ] using ih

lemma length_u16BE (x : Nat) : (u16BE x).length = 2 := rfl

lemma encode_length (b : Block) :
    (Block.encode b).length = b.data.length + 2 * b.offsets.length + 2 := by
  simp only [Block.encode, List.length_append, length_flatten_map_u16BE, length_u16BE]

lemma encode_count (b : Block) :
    readU16 (Block.encode b) ((Block.encode b).length - 2) = b.offsets.length % 65536 := by
  have hsplit : Block.encode b =
      (b.data ++ (b.offsets.map u16BE).flatten) ++
        [b.offsets.length % 65536 / 256 % 256, b.offsets.length % 65536 % 256] := by
    simp only [Block.encode, u16BE, List.append_assoc]
  have hpre : (b.data ++ (b.offsets.map u16BE).flatten).length =
      b.data.length + 2 * b.offsets.length := by
    rw [List.length_append, length_flatten_map_u16BE]
  have hidx : (Block.encode b).length - 2 = (b.data ++ (b.offsets.map u16BE).flatten).length := by
    rw [encode_length, hpre]
    omega
  rw [hidx, hsplit, readU16_append]
  have hmod : b.offsets.length % 65536 < 65536 := Nat.mod_lt _ (by omega)
  omega

lemma decode_spec (input : List Nat) (h2 : 2 ≤ input.length)
    (hn : 2 * readU16 input (input.length - 2) + 2 ≤ input.length) :
    Block.decode input = some
      { data := input.take (input.length - 2 - 2 * readU16 input (input.length - 2)),
        offsets := parseU16s ((input.take (input.length - 2)).drop
          (input.length - 2 - 2 * readU16 input (input.length - 2))) } := by
  unfold Block.decode
  rw [if_neg (by omega), if_neg (by omega)]

lemma decode_encode (b : Block) (hn : b.offsets.length ≤ 65535)
    (ho : ∀ o ∈ b.offsets, o < 65536) :
    Block.decode (Block.encode b) = some b := by
  have hcount : readU16 (Block.encode b) ((Block.encode b).length - 2) = b.offsets.length := by
    rw [encode_count]
    exact Nat.mod_eq_of_lt (by omega)
  have hlen := encode_length b
  rw [decode_spec _ (by omega) (by rw [hcount]; omega), hcount]
  have hS : (Block.encode b).length - 2 - 2 * b.offsets.length = b.data.length := by omega
  rw [hS]
  have hsplitR : Block.encode b =
      b.data ++ ((b.offsets.map u16BE).flatten ++ u16BE (b.offsets.length % 65536)) := by
    simp only [Block.encode, List.append_assoc]
  have hpre : (Block.encode b).take ((Block.encode b).length - 2) =
      b.data ++ (b.offsets.map u16BE).flatten := by
    have hidx : (Block.encode b).length - 2 =
        (b.data ++ (b.offsets.map u16BE).flatten).length := by
      rw [List.length_append, length_flatten_map_u16BE]
      omega
    rw [hidx]
    conv_lhs => rw [show Block.encode b =
      (b.data ++ (b.offsets.map u16BE).flatten) ++ u16BE (b.offsets.length % 65536) from rfl]
    exact List.take_left _ _
  have htake : (Block.encode b).take b.data.length = b.data := by
    conv_lhs => rw [hsplitR]
    exact List.take_left _ _
  rw [hpre, htake, List.drop_left, parseU16s_flatten_map b.offsets ho]


/-- A sorted source iterator for the merge iterator, as used in the course's
tests: a list of (key, value) pairs with keys as byte lists.  It provides the
`StorageIterator` capability set `key`, `value`, `is_valid`, `next`; `next`
never fails, so the `Result` of the source is always `Ok` and is dropped. -/
structure MockIter where
  entries : List (List Nat × List Nat)
deriving DecidableEq

def MockIter.is_valid (it : MockIter) : Bool := !it.entries.isEmpty

def MockIter.key (it : MockIter) : List Nat := (it.entries.headD ([], [])).1

def MockIter.value (it : MockIter) : List Nat := (it.entries.headD ([], [])).2

def MockIter.next (it : MockIter) : MockIter := ⟨it.entries.tail⟩

/-- Lexicographic byte-slice comparison (Rust `[u8]::cmp`). -/
def bytesCmp : List Nat → List Nat → Ordering
  | [], [] => .eq
  | [], _ :: _ => .lt
  | _ :: _, [] => .gt
  | a :: ta, b :: tb => (compare a b).then (bytesCmp ta tb)

/-- `HeapWrapper::cmp`: key comparison, then index comparison, reversed so the
max-heap yields the smallest (key, index) pair. -/
def wrapperCmp (x y : Nat × MockIter) : Ordering :=
  ((bytesCmp x.2.key y.2.key).then (compare x.1 y.1)).swap

/-- `BinaryHeap::pop`: remove the greatest element under `wrapperCmp`.  The
heap is modelled as a list; all observable behaviour depends only on the
multiset of elements because distinct source indices make `wrapperCmp` a
strict total order on any reachable active set. -/
def heapPop : List (Nat × MockIter) → Option ((Nat × MockIter) × List (Nat × MockIter))
  | [] => none
  | x :: xs =>
    match heapPop xs with
    | none => some (x, [])
    | some (m, rest) =>
      if wrapperCmp x m = .lt then some (m, x :: rest) else some (x, xs)

/-- `MergeIterator` from `src/iterators/merge_iterator.rs`: the active set of
(index, iterator) wrappers and the held winner. -/
structure MergeIterator where
  iters : List (Nat × MockIter)
  current : Option (Nat × MockIter)
deriving DecidableEq

/-- `MergeIterator::create`: wrap each iterator with its positional index and
keep only the valid ones. -/
def MergeIterator.create (its : List MockIter) : MergeIterator :=
  { iters := its.enum.filter (fun p => p.2.is_valid), current := none }

/-- `MergeIterator::is_valid`: `current.is_some_and(|w| w.1.is_valid())`. -/
def MergeIterator.is_valid (m : MergeIterator) : Bool :=
  match m.current with
  | some w => w.2.is_valid
  | none => false

/-- `MergeIterator::key` (meaningful only when `is_valid`, where the source
asserts). -/
def MergeIterator.key (m : MergeIterator) : List Nat :=
  match m.current with
  | some w => w.2.key
  | none => []

/-- `MergeIterator::value` (meaningful only when `is_valid`). -/
def MergeIterator.value (m : MergeIterator) : List Nat :=
  match m.current with
  | some w => w.2.value
  | none => []

/-- `MergeIterator::next`: pop the winner, advance every other source holding
an equal key (dropping the ones that become invalid), hold the winner as
`current`, advance the winner and, if it is still valid, move it back into the
heap with `self.current.take()`, leaving `current` empty. -/
def MergeIterator.next (m : MergeIterator) : MergeIterator :=
  match heapPop m.iters with
  | none => { m with current := none }
  | some (winner, rest) =>
    let survivors := rest.filterMap (fun w =>
      let w2 := if w.2.key = winner.2.key then (w.1, w.2.next) else w
      if w2.2.is_valid then some w2 else none)
    let advanced : Nat × MockIter := (winner.1, winner.2.next)
    if advanced.2.is_valid then { iters := advanced :: survivors, current := none }
    else { iters := survivors, current := some advanced }

lemma next_not_valid (m : MergeIterator) : (MergeIterator.next m).is_valid = false := by
  unfold MergeIterator.next
  cases h : heapPop m.iters with
  | none => rfl
  | some p =>
    obtain ⟨winner, rest⟩ := p
    dsimp only
    cases hv : (winner.2.next).is_valid with
    | false => simp [hv, MergeIterator.is_valid, MockIter.is_valid] at hv ⊢; simp [hv]
    | true => simp [hv, MergeIterator.is_valid]


/-- Modelled from the spec: the Block Builder (its source file is not among
the given sources).  Per the spec it incrementally appends entries to a Block
under a target byte-size budget, reports whether an entry was accepted, and a
freshly rotated empty block always has room for one entry.  Entries are stored
as 2-byte big-endian key length, key bytes, 2-byte big-endian value length,
value bytes; the size accounting uses the encoded-block size
`data + 2 * offsets + 2`. -/
structure BlockBuilder where
  data : List Nat
  offsets : List Nat
  blockSize : Nat
deriving DecidableEq

def entryBytes (key value : List Nat) : List Nat :=
  u16BE key.length ++ key ++ u16BE value.length ++ value

def BlockBuilder.new (blockSize : Nat) : BlockBuilder := ⟨[], [], blockSize⟩

def BlockBuilder.estimatedSize (bb : BlockBuilder) : Nat :=
  bb.data.length + 2 * bb.offsets.length + 2

/-- Modelled from the spec: `BlockBuilder::add` returns whether the entry was
accepted; an entry is accepted when the builder is empty or the grown block
still fits the byte budget.  `none` models a returned `false` (builder
unchanged). -/
def BlockBuilder.tryAdd (bb : BlockBuilder) (key value : List Nat) : Option BlockBuilder :=
  if bb.offsets.isEmpty = true ∨
      bb.estimatedSize + (entryBytes key value).length + 2 ≤ bb.blockSize then
    some { bb with data := bb.data ++ entryBytes key value,
                   offsets := bb.offsets ++ [bb.data.length] }
  else none

/-- Modelled from the spec: `BlockBuilder::build` finalizes the in-progress
Block. -/
def BlockBuilder.build (bb : BlockBuilder) : Block := ⟨bb.data, bb.offsets⟩

/-- `BlockMeta` (defined in `src/table.rs`, not among the given sources);
fields per section 3 of the spec: block start offset and the block's first and
last key. -/
structure BlockMeta where
  offset : Nat
  first_key : List Nat
  last_key : List Nat
deriving DecidableEq

/-- Modelled from the spec: `BlockMeta::encode_block_meta` serializes the
block metas in table order (the exact byte layout is not given by the spec;
a length-prefixed layout is used, and no theorem depends on it). -/
def encodeBlockMeta (metas : List BlockMeta) : List Nat :=
  (metas.map (fun m => u32BE (m.offset % 4294967296) ++
    u16BE (m.first_key.length % 65536) ++ m.first_key ++
    u16BE (m.last_key.length % 65536) ++ m.last_key)).flatten

/-- `SsTable` (defined in `src/table.rs`, not among the given sources); fields
per section 3 of the spec, omitting the file handle, block cache and bloom
filter, which are external collaborators. -/
structure SsTable where
  id : Nat
  block_meta : List BlockMeta
  block_meta_offset : Nat
  first_key : List Nat
  last_key : List Nat
  max_ts : Nat
deriving DecidableEq

/-- `SsTableBuilder` from `src/table/builder.rs`. -/
structure SsTableBuilder where
  builder : BlockBuilder
  first_key : List Nat
  last_key : List Nat
  data : List Nat
  meta : List BlockMeta
  block_size : Nat
deriving DecidableEq

def SsTableBuilder.new (block_size : Nat) : SsTableBuilder :=
  { builder := BlockBuilder.new block_size, first_key := [], last_key := [],
    data := [], meta := [], block_size := block_size }

/-- `SsTableBuilder::rotate_block`: finalize and encode the current block,
push a `BlockMeta` with the pre-append data length and the current key range,
take (empty) the tracked keys, and append the encoded bytes. -/
def SsTableBuilder.rotate_block (s : SsTableBuilder) : SsTableBuilder :=
  { s with builder := BlockBuilder.new s.block_size,
           meta := s.meta ++ [{ offset := s.data.length, first_key := s.first_key,
                                last_key := s.last_key }],
           first_key := [], last_key := [],
           data := s.data ++ (s.builder.build).encode }

/-- `SsTableBuilder::add`.  `none` models the `assert!` failing on the second
append after a rotation. -/
def SsTableBuilder.add (s : SsTableBuilder) (key value : List Nat) : Option SsTableBuilder :=
  let s1 := if s.first_key.isEmpty then { s with first_key := key } else s
  match s1.builder.tryAdd key value with
  | some bb => some { s1 with builder := bb, last_key := key }
  | none =>
    let s2 := s1.rotate_block
    match s2.builder.tryAdd key value with
    | none => none
    | some bb => some { s2 with builder := bb, first_key := key, last_key := key }

/-- `SsTableBuilder::build`: final rotate, then data blocks, serialized metas
and the 4-byte big-endian footer (`meta_offset as u32`).  The returned buffer
is the byte stream handed to `FileObject::create`; `none` models the
`meta.first().unwrap()` panic.  File I/O itself is an external collaborator
and is not modelled. -/
def SsTableBuilder.build (s : SsTableBuilder) (id : Nat) : Option (List Nat × SsTable) :=
  let s2 := s.rotate_block
  let metaOffset := s2.data.length
  let buf := s2.data ++ encodeBlockMeta s2.meta ++ u32BE (metaOffset % 4294967296)
  match s2.meta.head? with
  | none => none
  | some m0 =>
    some (buf, { id := id, block_meta := s2.meta, block_meta_offset := metaOffset,
                 first_key := m0.first_key, last_key := m0.last_key,
                 max_ts := 18446744073709551615 })

/-- Driver for quantifying over every entry sequence fed to the builder. -/
def SsTableBuilder.addAll (s : SsTableBuilder) : List (List Nat × List Nat) →
    Option SsTableBuilder
  | [] => some s
  | (k, v) :: rest => (s.add k v).bind (fun s2 => s2.addAll rest)


/-- A block with more entries than the u16 count field can hold, used to show
the truncation in `Block::encode`. -/
def overflowBlock : Block := { data := [], offsets := List.replicate 65536 0 }

/-- C5: for every Block fitting the format (at most 65535 entries, data region
at most 65535 bytes, offsets within u16 range), `decode (encode b)` returns a
Block whose data and offsets equal b's exactly. -/
theorem block_decode_encode_roundtrip (b : Block)
    (hn : b.offsets.length ≤ 65535) (_hd : b.data.length ≤ 65535)
    (ho : ∀ o ∈ b.offsets, o < 65536) :
    Block.decode (Block.encode b) = some b :=
  decode_encode b hn ho

theorem block_decode_encode_roundtrip_witness :
    ((⟨[1, 2], [0]⟩ : Block).offsets.length ≤ 65535 ∧
      (⟨[1, 2], [0]⟩ : Block).data.length ≤ 65535 ∧
      ∀ o ∈ (⟨[1, 2], [0]⟩ : Block).offsets, o < 65536) ∧
    Block.decode (Block.encode ⟨[1, 2], [0]⟩) = some ⟨[1, 2], [0]⟩ :=
  ⟨⟨by decide, by decide, by decide⟩,
    block_decode_encode_roundtrip ⟨[1, 2], [0]⟩ (by decide) (by decide) (by decide)⟩

/-- C9: on any byte buffer of length at least `2 * n + 2`, where `n` is the
big-endian u16 in the last two bytes, `Block::decode` stays in bounds and
returns exactly `n` offsets read from the `2 * n` bytes before the trailer,
with data equal to everything before the offset region. -/
theorem block_decode_in_contract_safe (input : List Nat)
    (_hbytes : ∀ x ∈ input, x < 256) (h2 : 2 ≤ input.length)
    (hn : 2 * readU16 input (input.length - 2) + 2 ≤ input.length) :
    ∃ blk, Block.decode input = some blk ∧
      blk.data = input.take (input.length - 2 - 2 * readU16 input (input.length - 2)) ∧
      blk.offsets = parseU16s ((input.take (input.length - 2)).drop
        (input.length - 2 - 2 * readU16 input (input.length - 2))) ∧
      blk.offsets.length = readU16 input (input.length - 2) := by
  refine ⟨_, decode_spec input h2 hn, rfl, rfl, ?_⟩
  rw [parseU16s_length, List.length_drop, List.length_take]
  omega

theorem block_decode_in_contract_safe_witness :
    ((∀ x ∈ ([0, 7, 0, 1] : List Nat), x < 256) ∧
      2 ≤ ([0, 7, 0, 1] : List Nat).length ∧
      2 * readU16 [0, 7, 0, 1] (([0, 7, 0, 1] : List Nat).length - 2) + 2 ≤
        ([0, 7, 0, 1] : List Nat).length) ∧
    ∃ blk, Block.decode [0, 7, 0, 1] = some blk ∧
      blk.data = ([0, 7, 0, 1] : List Nat).take (([0, 7, 0, 1] : List Nat).length - 2 -
        2 * readU16 [0, 7, 0, 1] (([0, 7, 0, 1] : List Nat).length - 2)) ∧
      blk.offsets = parseU16s ((([0, 7, 0, 1] : List Nat).take
        (([0, 7, 0, 1] : List Nat).length - 2)).drop (([0, 7, 0, 1] : List Nat).length - 2 -
        2 * readU16 [0, 7, 0, 1] (([0, 7, 0, 1] : List Nat).length - 2))) ∧
      blk.offsets.length = readU16 [0, 7, 0, 1] (([0, 7, 0, 1] : List Nat).length - 2) :=
  ⟨⟨by decide, by decide, by decide⟩,
    block_decode_in_contract_safe [0, 7, 0, 1] (by decide) (by decide) (by decide)⟩

/-- C10: `Block::encode` stores the entry count as `offsets.len() % 2 ^ 16`;
for a Block with 65536 entries the stored count differs from the true count
and decoding the encoding recovers fewer offsets, so the exact round-trip
needs `offsets.len() <= 65535`. -/
theorem block_encode_count_mod_u16 :
    (∀ b : Block, readU16 (Block.encode b) ((Block.encode b).length - 2) =
      b.offsets.length % 65536) ∧
    65535 < overflowBlock.offsets.length ∧
    readU16 (Block.encode overflowBlock) ((Block.encode overflowBlock).length - 2) ≠
      overflowBlock.offsets.length ∧
    ∃ blk, Block.decode (Block.encode overflowBlock) = some blk ∧
      blk.offsets.length < overflowBlock.offsets.length := by
  have hlenoff : overflowBlock.offsets.length = 65536 := by
    rw [show overflowBlock.offsets = List.replicate 65536 0 from rfl, List.length_replicate]
  have hc0 : readU16 (Block.encode overflowBlock) ((Block.encode overflowBlock).length - 2)
      = 0 := by
    rw [encode_count, hlenoff]
  have hlen : (Block.encode overflowBlock).length = 131074 := by
    have hdl : overflowBlock.data.length = 0 := rfl
    rw [encode_length, hlenoff, hdl]
  refine ⟨encode_count, by omega, by omega, ?_⟩
  rw [decode_spec _ (by omega) (by rw [hc0]; omega), hc0]
  refine ⟨_, rfl, ?_⟩
  have hdrop : ((Block.encode overflowBlock).take ((Block.encode overflowBlock).length - 2)).drop
      ((Block.encode overflowBlock).length - 2 - 2 * 0) = [] :=
    List.drop_eq_nil_of_le (by rw [List.length_take]; omega)
  rw [hdrop]
  simp [parseU16s, hlenoff]


lemma snd_mem_of_mem_enumFrom {α : Type} :
    ∀ (l : List α) (n : Nat) (p : Nat × α), p ∈ l.enumFrom n → p.2 ∈ l := by
  intro l
  induction l with
  | nil => intro n p hp; simp [List.enumFrom] at hp
  | cons x t ih =>
    intro n p hp
    rw [List.enumFrom, List.mem_cons] at hp
    rcases hp with hp | hp
    · simp [hp]
    · exact List.mem_cons_of_mem x (ih (n + 1) p hp)

/-- First source of the spec's merge example: `[(1, "a"), (3, "c")]`. -/
def exampleA : MockIter := ⟨[([1], [97]), ([3], [99])]⟩

/-- Second source of the spec's merge example: `[(1, "b"), (2, "x")]`. -/
def exampleB : MockIter := ⟨[([1], [98]), ([2], [120])]⟩

/-- C1 (code bug): after every call to `next`, `is_valid` is false — the
winner is advanced and moved back into the heap with `self.current.take()`
(or kept in `current` only once exhausted), so the winner's key and value are
never exposed until the following `next`, contrary to the spec.  Shown in
general and on a single-source merge. -/
theorem merge_next_invalidates :
    (∀ m : MergeIterator, (MergeIterator.next m).is_valid = false) ∧
    (MergeIterator.next (MergeIterator.create [⟨[([1], [10])]⟩])).is_valid = false ∧
    (MergeIterator.next (MergeIterator.create [⟨[([1], [10])]⟩])).current = some (0, ⟨[]⟩) :=
  ⟨next_not_valid, by decide, by decide⟩

/-- C2 (code bug): on the spec's example `A = [(1, a), (3, c)]`,
`B = [(1, b), (2, x)]`, the first `next` does pick source 0 as winner and
silently advances source 1 past key 1, but the winner is pushed straight back
into the heap: `current` is `none`, `is_valid` is false after every call, and
the stream `[(1, a), (2, x), (3, c)]` is never exposed to the caller. -/
theorem merge_example_stream_never_exposed :
    (MergeIterator.create [exampleA, exampleB]).is_valid = false ∧
    MergeIterator.next (MergeIterator.create [exampleA, exampleB]) =
      { iters := [(0, ⟨[([3], [99])]⟩), (1, ⟨[([2], [120])]⟩)], current := none } ∧
    (MergeIterator.next (MergeIterator.create [exampleA, exampleB])).is_valid = false ∧
    (MergeIterator.next (MergeIterator.next
      (MergeIterator.create [exampleA, exampleB]))).is_valid = false ∧
    (MergeIterator.next (MergeIterator.next (MergeIterator.next
      (MergeIterator.create [exampleA, exampleB])))).is_valid = false ∧
    (MergeIterator.next (MergeIterator.next (MergeIterator.next (MergeIterator.next
      (MergeIterator.create [exampleA, exampleB]))))).is_valid = false ∧
    (MergeIterator.next (MergeIterator.next (MergeIterator.next (MergeIterator.next
      (MergeIterator.create [exampleA, exampleB]))))).iters = [] := by
  decide

/-- C7: `create` discards exhausted iterators, so every member of the active
set is valid; created from zero iterators or only invalid ones, the merge
iterator is immediately invalid and `next` is a no-op (the source `Result` is
always `Ok` here because the modelled sources never fail). -/
theorem merge_create_filters_exhausted (its : List MockIter) :
    (∀ p ∈ (MergeIterator.create its).iters, p.2.is_valid = true) ∧
    ((∀ i ∈ its, i.is_valid = false) →
      (MergeIterator.create its).is_valid = false ∧
      MergeIterator.next (MergeIterator.create its) = MergeIterator.create its) := by
  constructor
  · intro p hp
    exact (List.mem_filter.mp hp).2
  · intro h
    have hfil : its.enum.filter (fun p => p.2.is_valid) = [] := by
      rw [List.filter_eq_nil_iff]
      intro p hp
      rw [h p.2 (snd_mem_of_mem_enumFrom its 0 p hp)]
      exact Bool.false_ne_true
    refine ⟨rfl, ?_⟩
    simp only [MergeIterator.create, hfil]
    rfl

theorem merge_create_filters_exhausted_witness :
    (∀ i ∈ [(⟨[]⟩ : MockIter)], i.is_valid = false) ∧
    (MergeIterator.create [(⟨[]⟩ : MockIter)]).is_valid = false ∧
    MergeIterator.next (MergeIterator.create [(⟨[]⟩ : MockIter)]) =
      MergeIterator.create [(⟨[]⟩ : MockIter)] :=
  ⟨by decide, (merge_create_filters_exhausted [⟨[]⟩]).2 (by decide)⟩


/-- C3 (counterexample): building with zero entries added is not rejected —
the final rotate pushes a `BlockMeta` for the empty block, `meta.first()`
exists, and `build` returns a degenerate table with empty first/last keys. -/
theorem sstable_build_empty_not_rejected :
    SsTableBuilder.build (SsTableBuilder.new 12) 0 =
      some ([0, 0, 0, 0, 0, 0, 0, 0, 0, 0, 0, 0, 0, 2],
        { id := 0, block_meta := [{ offset := 0, first_key := [], last_key := [] }],
          block_meta_offset := 2, first_key := [], last_key := [],
          max_ts := 18446744073709551615 }) := by
  decide

/-- C3 (amended): `build` with zero entries added is not rejected; the final
rotate emits one empty block whose `BlockMeta` carries empty keys, and the
returned table has empty table-level first and last keys. -/
theorem sstable_build_empty_degenerate (bsz id : Nat) :
    ∃ p, SsTableBuilder.build (SsTableBuilder.new bsz) id = some p ∧
      p.2.first_key = [] ∧ p.2.last_key = [] ∧
      p.2.block_meta = [{ offset := 0, first_key := [], last_key := [] }] := by
  refine ⟨([0, 0, 0, 0, 0, 0, 0, 0, 0, 0, 0, 0, 0, 2],
    { id := id, block_meta := [{ offset := 0, first_key := [], last_key := [] }],
      block_meta_offset := 2, first_key := [], last_key := [],
      max_ts := 18446744073709551615 }), ?_, rfl, rfl, rfl⟩
  simp [SsTableBuilder.build, SsTableBuilder.rotate_block, SsTableBuilder.new, BlockBuilder.new,
    BlockBuilder.build, Block.encode, encodeBlockMeta, u16BE, u32BE]

/-- C4 (code bug): with two blocks, `build` copies `meta.first()`'s last key
into the table, so the table's `last_key` is the first block's maximum, not
the last block's. -/
theorem sstable_last_key_from_first_block :
    ∃ p, ((SsTableBuilder.new 12).add [1] [10]).bind
        (fun s1 => (s1.add [2] [20]).bind (fun s2 => s2.build 0)) = some p ∧
      p.2.block_meta.map (fun m => m.last_key) = [[1], [2]] ∧
      p.2.last_key = [1] := by
  refine ⟨([0, 1, 1, 0, 1, 10, 0, 0, 0, 1, 0, 1, 2, 0, 1, 20, 0, 0, 0, 1, 0, 0, 0, 0, 0, 1, 1,
      0, 1, 1, 0, 0, 0, 10, 0, 1, 2, 0, 1, 2, 0, 0, 0, 20],
    { id := 0,
      block_meta := [{ offset := 0, first_key := [1], last_key := [1] },
                     { offset := 10, first_key := [2], last_key := [2] }],
      block_meta_offset := 20, first_key := [1], last_key := [1],
      max_ts := 18446744073709551615 }), by decide, by decide, by decide⟩

lemma tryAdd_new (bsz : Nat) (key value : List Nat) :
    (BlockBuilder.new bsz).tryAdd key value =
      some { data := entryBytes key value, offsets := [0], blockSize := bsz } := by
  simp [BlockBuilder.tryAdd, BlockBuilder.new]

/-- C6: when the in-progress block builder rejects an entry, `add` rotates —
pushing a `BlockMeta` whose offset is the pre-append data length and whose
keys are the tracked block keys — then appends the entry to the fresh builder;
that second append succeeds (an empty builder always accepts, so the
`assert!` that would abort construction cannot fire), and afterwards both
tracked keys equal the just-added key. -/
theorem sstable_add_rejected_rotates (s : SsTableBuilder) (key value : List Nat)
    (hrej : s.builder.tryAdd key value = none) :
    ∃ bb, (BlockBuilder.new s.block_size).tryAdd key value = some bb ∧
      SsTableBuilder.add s key value = some
        { builder := bb,
          first_key := key, last_key := key,
          data := s.data ++ (s.builder.build).encode,
          meta := s.meta ++ [{ offset := s.data.length,
                               first_key := if s.first_key.isEmpty then key else s.first_key,
                               last_key := s.last_key }],
          block_size := s.block_size } := by
  refine ⟨{ data := entryBytes key value, offsets := [0], blockSize := s.block_size },
    tryAdd_new s.block_size key value, ?_⟩
  unfold SsTableBuilder.add
  by_cases hfk : s.first_key.isEmpty
  · simp [hfk, hrej, tryAdd_new, SsTableBuilder.rotate_block]
  · simp [hfk, hrej, tryAdd_new, SsTableBuilder.rotate_block]


/-- A builder state holding one entry, used to trigger a rotation. -/
def rotationState : SsTableBuilder :=
  { builder := { data := [0, 1, 1, 0, 1, 10], offsets := [0], blockSize := 12 },
    first_key := [1], last_key := [1], data := [], meta := [], block_size := 12 }

theorem sstable_add_rejected_rotates_witness :
    rotationState.builder.tryAdd [2] [20] = none ∧
    ∃ bb, (BlockBuilder.new rotationState.block_size).tryAdd [2] [20] = some bb ∧
      SsTableBuilder.add rotationState [2] [20] = some
        { builder := bb, first_key := [2], last_key := [2],
          data := rotationState.data ++ (rotationState.builder.build).encode,
          meta := rotationState.meta ++ [{ offset := rotationState.data.length,
                                           first_key := [1],
                                           last_key := rotationState.last_key }],
          block_size := rotationState.block_size } :=
  ⟨by decide, sstable_add_rejected_rotates rotationState [2] [20] (by decide)⟩

lemma add_data_cases (s : SsTableBuilder) (key value : List Nat) :
    ∃ s2, s.add key value = some s2 ∧
      (s2.data = s.data ∨ s2.data = s.data ++ (s.builder.build).encode) := by
  unfold SsTableBuilder.add
  by_cases hfk : s.first_key.isEmpty <;>
    cases htry : s.builder.tryAdd key value <;>
      simp [hfk, htry, tryAdd_new, SsTableBuilder.rotate_block]

lemma addAll_blocks : ∀ (es : List (List Nat × List Nat)) (s : SsTableBuilder)
    (bs : List Block), s.data = (bs.map Block.encode).flatten →
    ∃ (s2 : SsTableBuilder) (bs2 : List Block),
      s.addAll es = some s2 ∧ s2.data = (bs2.map Block.encode).flatten := by
  intro es
  induction es with
  | nil => exact fun s bs h => ⟨s, bs, rfl, h⟩
  | cons kv rest ih =>
    intro s bs h
    obtain ⟨k, v⟩ := kv
    obtain ⟨s2, hadd, hcase⟩ := add_data_cases s k v
    rcases hcase with hd | hd
    · obtain ⟨s3, bs3, hrest, h3⟩ := ih s2 bs (by rw [hd, h])
      exact ⟨s3, bs3, by simp [SsTableBuilder.addAll, hadd, hrest], h3⟩
    · obtain ⟨s3, bs3, hrest, h3⟩ := ih s2 (bs ++ [s.builder.build]) (by
        rw [hd, h, List.map_append, List.flatten_append]
        simp)
      exact ⟨s3, bs3, by simp [SsTableBuilder.addAll, hadd, hrest], h3⟩

lemma build_layout (s : SsTableBuilder) (id : Nat) (bs : List Block)
    (h : s.data = (bs.map Block.encode).flatten) :
    ∃ p, s.build id = some p ∧
      p.1 = (((bs ++ [s.builder.build]).map Block.encode).flatten) ++
        encodeBlockMeta p.2.block_meta ++ u32BE (p.2.block_meta_offset % 4294967296) ∧
      p.2.block_meta_offset = (((bs ++ [s.builder.build]).map Block.encode).flatten).length := by
  have hflat : s.data ++ (s.builder.build).encode =
      ((bs ++ [s.builder.build]).map Block.encode).flatten := by
    rw [h, List.map_append, List.flatten_append]
    simp
  unfold SsTableBuilder.build
  simp only [SsTableBuilder.rotate_block]
  cases hmeta : s.meta with
  | nil =>
    rw [List.nil_append, List.head?_cons]
    refine ⟨_, rfl, ?_, ?_⟩
    · dsimp only
      rw [hflat]
    · dsimp only
      rw [hflat]
  | cons m0 tl =>
    rw [List.cons_append, List.head?_cons]
    refine ⟨_, rfl, ?_, ?_⟩
    · dsimp only
      rw [hflat]
    · dsimp only
      rw [hflat]

lemma readU32_append (pre : List Nat) (a b c d : Nat) :
    readU32 (pre ++ [a, b, c, d]) pre.length = ((a * 256 + b) * 256 + c) * 256 + d := by
  induction pre with
  | nil => rfl
  | cons x t ih =>
    simpa only [readU32, List.cons_append, List.length_cons, List.getD_cons_succ] using ih

lemma readU32_append_u32BE (pre : List Nat) (x : Nat) (hx : x < 4294967296) :
    readU32 (pre ++ u32BE x) ((pre ++ u32BE x).length - 4) = x := by
  have hlen : (pre ++ u32BE x).length - 4 = pre.length := by
    simp [u32BE]
  rw [hlen, show pre ++ u32BE x =
    pre ++ [x / 16777216 % 256, x / 65536 % 256, x / 256 % 256, x % 256] from rfl,
    readU32_append]
  omega

/-- C8: for any entry sequence, the built buffer is the concatenated encoded
blocks, then the serialized block metas, then the 4-byte big-endian footer
carrying the meta-section start (`meta_offset as u32`); the returned table's
`block_meta_offset` is that offset, and the last 4 bytes decode to it
(modulo the u32 cast). -/
theorem sstable_build_layout (bsz id : Nat) (es : List (List Nat × List Nat)) :
    ∃ (s : SsTableBuilder) (p : List Nat × SsTable) (bs : List Block),
      (SsTableBuilder.new bsz).addAll es = some s ∧
      s.build id = some p ∧
      p.1 = (bs.map Block.encode).flatten ++ encodeBlockMeta p.2.block_meta ++
        u32BE (p.2.block_meta_offset % 4294967296) ∧
      p.2.block_meta_offset = ((bs.map Block.encode).flatten).length ∧
      readU32 p.1 (p.1.length - 4) = p.2.block_meta_offset % 4294967296 := by
  obtain ⟨s, bs0, hall, hdata⟩ := addAll_blocks es (SsTableBuilder.new bsz) [] rfl
  obtain ⟨p, hbuild, hbuf, hoff⟩ := build_layout s id bs0 hdata
  refine ⟨s, p, bs0 ++ [s.builder.build], hall, hbuild, hbuf, hoff, ?_⟩
  rw [hbuf]
  exact readU32_append_u32BE _ _ (Nat.mod_lt _ (by omega))

end MiniLsm
